import Mathlib

/-!
Verification development for the HullAlgoTrading backtesting engine.

The definitions below are a shallow embedding of the Python sources:
  - src/backtesting/strategy_analysis.py  (ConsecutiveWinLoss, StrategyAnalysis)
  - src/backtesting/hull_ma_strategy.py   (HullMABackTesting exit resolution)
  - src/backtesting/rule_engine2.py       (RuleEngine2 trailing stop loss)
  - src/backtesting/rule_engine3.py       (RuleEngine3 calendar spread exit)
  - src/backtesting/base_backtesting.py   (calendar helpers)

Python floats are modelled as rationals; `round(x, 2)` is modelled as
round-half-to-even to two decimals, matching Python's rounding of exact
halves (all concrete values used in witnesses are exact, away from ties).
Dates are modelled as integer day ordinals with day 0 a Monday, so that
`weekday d = d % 7` gives 5 for Saturday and 6 for Sunday exactly as
Python's `date.weekday()` does.  Unbounded `while` loops of the source
walk day-by-day and are embedded with explicit fuel, returning `none`
when the fuel is exhausted (the source would keep looping).
-/

/-- Floor of a rational as an integer, written out explicitly so that it
evaluates by unfolding. -/
def ratFloor (x : ℚ) : ℤ := Int.fdiv x.num x.den

/-- Round-half-to-even of a rational to an integer, the rounding used by
Python's builtin `round`. -/
def roundHalfEven (x : ℚ) : ℤ :=
  let f : ℤ := ratFloor x
  let r : ℚ := x - f
  if r < 1/2 then f
  else if 1/2 < r then f + 1
  else if f % 2 = 0 then f else f + 1

/-- Model of Python's `round(x, 2)`: round to two decimal places. -/
def round2 (x : ℚ) : ℚ := (roundHalfEven (100 * x) : ℚ) / 100

/-- Timestamp with minute resolution: an integer day ordinal (day 0 is a
Monday) plus hour and minute, mirroring `datetime.datetime` as used by the
engine. -/
structure DateTime where
  day : ℤ
  hour : ℕ
  minute : ℕ
  deriving DecidableEq, Repr

/-- One historical minute bar as consumed by the stop-loss and take-profit
scans: `HistoricalPrice.ticker_datetime` and `HistoricalPrice.close`. -/
structure Bar where
  ts : DateTime
  close : ℚ
  deriving DecidableEq, Repr

/-- Exit classification constants from `src/backtesting/constant.py`. -/
inductive ExitType where
  | SL_EXIT
  | EXIT_SIGNAL
  | EXPIRY_EXIT
  | MISSING_DATA
  | CE_PREMIUM_EXIT
  | NO_TRADE
  | SOFT_EXIT
  | INVALID_EXIT
  | TAKE_PROFIT_EXIT
  deriving DecidableEq, Repr

/-- Option side of a leg: the hull strategy buys CE (long) and sells PE
(short). -/
inductive OptionType where
  | CE
  | PE
  deriving DecidableEq, Repr

/-! ## ConsecutiveWinLoss (strategy_analysis.py lines 12-38) -/

/-- State of the consecutive win/loss streak tracker, a direct embedding of
the `ConsecutiveWinLoss` dataclass. -/
structure ConsecutiveWinLoss where
  prev_trade : ℤ := 0
  temp_consecutive_win : ℕ := 0
  consecutive_win : ℕ := 0
  temp_consecutive_loss : ℕ := 0
  consecutive_loss : ℕ := 0
  deriving DecidableEq, Repr

/-- Embedding of `ConsecutiveWinLoss.compute`: the four-way `if/elif` chain
of the source, applied to one trade's profit/loss. -/
def ConsecutiveWinLoss.compute (s : ConsecutiveWinLoss) (profit_loss : ℚ) :
    ConsecutiveWinLoss :=
  if profit_loss ≤ 0 ∧ s.prev_trade ≤ 0 then
    { s with prev_trade := -1,
             temp_consecutive_loss := s.temp_consecutive_loss + 1 }
  else if 0 < profit_loss ∧ 0 ≤ s.prev_trade then
    { s with prev_trade := 1,
             temp_consecutive_win := s.temp_consecutive_win + 1 }
  else if profit_loss ≤ 0 ∧ 0 < s.prev_trade then
    { s with prev_trade := -1,
             consecutive_win := max s.consecutive_win s.temp_consecutive_win,
             temp_consecutive_win := 0 }
  else if s.prev_trade < 0 ∧ 0 < profit_loss then
    { s with prev_trade := 1,
             consecutive_loss := max s.consecutive_loss s.temp_consecutive_loss,
             temp_consecutive_loss := 0 }
  else s

/-! ## StrategyAnalysis derived ratios (strategy_analysis.py lines 41-133) -/

/-- Counters of the `StrategyAnalysis` dataclass that feed the derived
ratios and the drawdown computation. -/
structure StrategyAnalysis where
  total_trades : ℕ := 0
  profit : ℚ := 0
  loss : ℚ := 0
  win_trades : ℕ := 0
  loss_trades : ℕ := 0
  initial_capital : Option ℚ := none
  equity_curve : List ℚ := []
  deriving DecidableEq, Repr

/-- Embedding of the `avg_win` property: guarded by `win_trades` truthiness. -/
def avg_win (s : StrategyAnalysis) : ℚ :=
  if s.win_trades ≠ 0 then round2 (s.profit / s.win_trades) else 0

/-- Embedding of the `avg_loss` property: guarded by `loss_trades` truthiness. -/
def avg_loss (s : StrategyAnalysis) : ℚ :=
  if s.loss_trades ≠ 0 then round2 (s.loss / s.loss_trades) else 0

/-- Embedding of the `win_percent` property: guarded by `total_trades`. -/
def win_percent (s : StrategyAnalysis) : ℚ :=
  if s.total_trades ≠ 0 then round2 (s.win_trades / s.total_trades * 100) else 0

/-- Embedding of the `loss_percent` property: guarded by `total_trades`. -/
def loss_percent (s : StrategyAnalysis) : ℚ :=
  if s.total_trades ≠ 0 then round2 (s.loss_trades / s.total_trades * 100) else 0

/-- Embedding of the `win_ratio` property: guarded by `loss_trades`. -/
def win_ratio (s : StrategyAnalysis) : ℚ :=
  if s.loss_trades ≠ 0 then round2 (s.win_trades / s.loss_trades) else 0

/-- Embedding of the `avg_win_loss` property: guarded by the truthiness of
the `avg_loss` value itself. -/
def avg_win_loss (s : StrategyAnalysis) : ℚ :=
  if avg_loss s ≠ 0 then round2 (avg_win s / |avg_loss s|) else 0

/-- Embedding of the `profit_potential` property: guarded by both `avg_loss`
and `loss_trades` truthiness. -/
def profit_potential (s : StrategyAnalysis) : ℚ :=
  if avg_loss s ≠ 0 ∧ s.loss_trades ≠ 0 then
    round2 ((avg_win s * s.win_trades) / (|avg_loss s| * s.loss_trades))
  else 0

/-! ## Drawdown (strategy_analysis.py lines 122-133)

The property builds `np.maximum.accumulate(equity_curve) - equity_curve`,
takes `np.argmax` of it (first index of the maximum), and takes `np.argmax`
of the slice before that index.  `np.argmax` of an empty array raises
`ValueError`, which we model with an explicit exception result. -/

/-- Result of evaluating a Python expression that may raise. -/
inductive PyResult (α : Type) where
  | ok : α → PyResult α
  | exn : PyResult α
  deriving DecidableEq, Repr

/-- Running maxima of a list, the embedding of `np.maximum.accumulate`. -/
def runningMaxAux (m : ℚ) : List ℚ → List ℚ
  | [] => []
  | x :: xs => max m x :: runningMaxAux (max m x) xs

/-- Running maxima of a list starting from its head. -/
def runningMax : List ℚ → List ℚ
  | [] => []
  | x :: xs => x :: runningMaxAux x xs

/-- First index of the maximum of the tail, tracking the best index/value so
far; helper for `argmaxQ`. -/
def argmaxAux : List ℚ → ℕ → ℕ → ℚ → ℕ
  | [], _, bi, _ => bi
  | x :: xs, i, bi, bv =>
    if bv < x then argmaxAux xs (i + 1) i x else argmaxAux xs (i + 1) bi bv

/-- Embedding of `np.argmax`: first index of the maximum, `none` for the
empty array (where numpy raises). -/
def argmaxQ : List ℚ → Option ℕ
  | [] => none
  | x :: xs => some (argmaxAux xs 1 0 x)

/-- Peak-to-current drops `np.maximum.accumulate(ec) - ec` of an equity
curve. -/
def drawdownDrops (ec : List ℚ) : List ℚ :=
  List.zipWith (fun m x => m - x) (runningMax ec) ec

/-- Embedding of the `drawdown` property of `StrategyAnalysis`: `ok none`
when no initial capital is configured, an exception when either `np.argmax`
call sees an empty array, and the rounded peak-minus-trough value
otherwise. -/
def drawdown (initial_capital : Option ℚ) (equity_curve : List ℚ) :
    PyResult (Option ℚ) :=
  match initial_capital with
  | none => .ok none
  | some _ =>
    match argmaxQ (drawdownDrops equity_curve) with
    | none => .exn
    | some trough =>
      match argmaxQ (equity_curve.take trough) with
      | none => .exn
      | some peak =>
        .ok (some (round2 (equity_curve.getD peak 0 - equity_curve.getD trough 0)))

/-! ## Hull strategy stop-loss / take-profit scans
(hull_ma_strategy.py lines 275-345)

`instrument_stop_loss_hit` and `instrument_take_profit_hit` both scan the
bars strictly between the instrument's entry and the actual exit datetime
(the scans below receive that already-filtered list).  The stored class
fields `self._ce_sl` / `self._pe_sl` appear as the `storedSl` argument. -/

/-- Stop-loss threshold used by `HullMABackTesting.instrument_stop_loss_hit`
(lines 289-307): reused from the stored field when present, otherwise
computed from the scanned instrument's entry price — below the price for
the long CE leg, above it for the short PE leg. -/
def hullSlPrice (ot : OptionType) (storedSl : Option ℚ) (stop_loss price : ℚ) : ℚ :=
  match ot, storedSl with
  | .CE, none => if stop_loss = 100 then 0 else round2 ((100 - stop_loss) * price / 100)
  | .PE, none => round2 ((100 + stop_loss) * price / 100)
  | _, some sl => sl

/-- Per-bar stop-loss trigger condition of the hull scan: close below the
threshold for the long CE leg, above it for the short PE leg. -/
def hullSlCond (ot : OptionType) (sl_price : ℚ) (b : Bar) : Bool :=
  match ot with
  | .CE => decide (b.close < sl_price)
  | .PE => decide (sl_price < b.close)

/-- Take-profit threshold of
`HullMABackTesting.instrument_take_profit_hit` (lines 331-337). -/
def hullTpPrice (ot : OptionType) (profit_percent price : ℚ) : ℚ :=
  match ot with
  | .CE => round2 ((100 + profit_percent) * price / 100)
  | .PE => if profit_percent = 100 then 0 else round2 ((100 - profit_percent) * price / 100)

/-- Per-bar take-profit trigger condition of the hull scan (lines 338-344). -/
def hullTpCond (ot : OptionType) (tp_price : ℚ) (b : Bar) : Bool :=
  match ot with
  | .CE => decide (tp_price ≤ b.close)
  | .PE => decide (b.close ≤ tp_price)

/-- Embedding of `HullMABackTesting.instrument_stop_loss_hit`: first bar of
the range whose close breaches the threshold; `none` models the
`(False, None, None)` return. -/
def instrument_stop_loss_hit (ot : OptionType) (storedSl : Option ℚ)
    (stop_loss price : ℚ) (bars : List Bar) : Option Bar :=
  bars.find? (hullSlCond ot (hullSlPrice ot storedSl stop_loss price))

/-- Embedding of `HullMABackTesting.instrument_take_profit_hit`. -/
def instrument_take_profit_hit (ot : OptionType) (profit_percent price : ℚ)
    (bars : List Bar) : Option Bar :=
  bars.find? (hullTpCond ot (hullTpPrice ot profit_percent price))

/-! ## Hull strategy per-leg exit resolution
(hull_ma_strategy.py lines 448-520)

`HullMABackTesting.exit` resolves, per leg: the nominal exit type and
timestamp from the expiry comparison (lines 461-470, with the soft-exit
override of lines 472-474), then runs the stop-loss scan and the
take-profit scan over the whole bar range, and finally applies the
`if sl_hit: ... elif profit_hit: ... else: ...` precedence of
lines 501-521.  `nominal_price` stands for the price-series lookup made in
the `else` branch. -/

/-- Result of resolving one leg's exit: its exit type, exit price, and exit
timestamp. -/
structure LegExit where
  exitType : ExitType
  price : ℚ
  ts : DateTime
  deriving DecidableEq, Repr

/-- Embedding of the per-leg exit resolution of `HullMABackTesting.exit`. -/
def hullLegExit (ot : OptionType) (soft_exit : Bool)
    (sl_check take_profit_check storedSl : Option ℚ)
    (entry_price : ℚ) (expiry : ℤ) (exit_datetime : DateTime)
    (bars : List Bar) (nominal_price : ℚ) : LegExit :=
  let nominal : ExitType × DateTime :=
    if expiry < exit_datetime.day then
      (.EXPIRY_EXIT, ⟨expiry, 15, 29⟩)
    else
      (.EXIT_SIGNAL, exit_datetime)
  let nominalType : ExitType := if soft_exit then .SOFT_EXIT else nominal.1
  let slHit : Option Bar :=
    match sl_check with
    | none => none
    | some sl => instrument_stop_loss_hit ot storedSl sl entry_price bars
  let tpHit : Option Bar :=
    match take_profit_check with
    | none => none
    | some tp => instrument_take_profit_hit ot tp entry_price bars
  match slHit with
  | some b => ⟨.SL_EXIT, b.close, b.ts⟩
  | none =>
    match tpHit with
    | some b => ⟨.TAKE_PROFIT_EXIT, b.close, b.ts⟩
    | none => ⟨nominalType, nominal_price, nominal.2⟩

/-! ## RuleEngine2 trailing stop loss (rule_engine2.py lines 327-339, 428-456)
and RuleEngine3 calendar stop loss (rule_engine3.py lines 383-393, 531-563) -/

/-- Candidate stop-loss price computed from a bar's close for a short leg:
`round((100 + stop_loss) * close / 100, 2)`. -/
def sl_candidate (stop_loss close : ℚ) : ℚ :=
  round2 ((100 + stop_loss) * close / 100)

/-- One trailing update of the stored stop-loss price: adopt the candidate
only when it is strictly lower (rule_engine2.py lines 447-452). -/
def sl_trail (stop_loss sl close : ℚ) : ℚ :=
  if sl_candidate stop_loss close < sl then sl_candidate stop_loss close else sl

/-- Initial stop-loss price stored on the short instrument at entry
(rule_engine2.py lines 327-339, rule_engine3.py lines 387-393). -/
def re2_entry_sl_price (stop_loss price : ℚ) : ℚ :=
  round2 ((100 + stop_loss) * price / 100)

/-- Embedding of `RuleEngine2.instrument_stop_loss_hit`: walk the bars,
trail the stored stop-loss price, and stop at the first bar whose close
strictly exceeds the (just-updated) stored price.  The second component is
the stored `sl_price` left on the instrument when the scan returns. -/
def re2_instrument_stop_loss_hit (stop_loss : ℚ) : ℚ → List Bar → Option Bar × ℚ
  | sl, [] => (none, sl)
  | sl, b :: rest =>
    let sl' := sl_trail stop_loss sl b.close
    if sl' < b.close then (some b, sl')
    else re2_instrument_stop_loss_hit stop_loss sl' rest

/-- Embedding of `RuleEngine3.calendar_stop_loss_hit`: identical walk, but
the trailing update only happens when the `trailing_sl` flag is set. -/
def calendar_stop_loss_hit (trailing_sl : Bool) (stop_loss : ℚ) :
    ℚ → List Bar → Option Bar × ℚ
  | sl, [] => (none, sl)
  | sl, b :: rest =>
    let sl' := if trailing_sl then sl_trail stop_loss sl b.close else sl
    if sl' < b.close then (some b, sl')
    else calendar_stop_loss_hit trailing_sl stop_loss sl' rest

/-- Stored stop-loss price after scanning a list of bars, starting from
`sl0`: the fold of the trailing update. -/
def sl_after (stop_loss sl0 : ℚ) (bars : List Bar) : ℚ :=
  bars.foldl (fun s b => sl_trail stop_loss s b.close) sl0

/-! ## RuleEngine3 exit resolution and lot bookkeeping
(rule_engine3.py lines 199-214, 225-240, 316-325) -/

/-- Embedding of the exit-type and exit-timestamp resolution of
`RuleEngine3.exit`: the nominal classification pins an after-expiry exit to
the expiry day at 15:25 (lines 205-214), and a stop-loss hit overrides it
(lines 225-240). -/
def re3_exit (expiry : ℤ) (exit_datetime : DateTime) (sl_check : Option ℚ)
    (trailing_sl : Bool) (sl0 : ℚ) (bars : List Bar) : ExitType × DateTime :=
  let nominal : ExitType × DateTime :=
    if expiry < exit_datetime.day then
      (.EXPIRY_EXIT, ⟨expiry, 15, 25⟩)
    else
      (.EXIT_SIGNAL, exit_datetime)
  match sl_check with
  | none => nominal
  | some sl =>
    match (calendar_stop_loss_hit trailing_sl sl sl0 bars).1 with
    | some b => (.SL_EXIT, b.ts)
    | none => nominal

/-- Leg of a position, the embedding of the `Instrument` dataclass fields
used by the lot-size bookkeeping. -/
structure Instrument where
  lot_size : ℤ
  price : ℚ := 0
  sl_price : Option ℚ := none
  deriving DecidableEq, Repr

/-- Calendar spread: buy the current-week leg, sell the next-week leg
(the `CalendarInstrument` dataclass). -/
structure CalendarInstrument where
  current_week_instrument : Instrument
  next_week_instrument : Instrument
  deriving DecidableEq, Repr

/-- Embedding of the lot-size bookkeeping at the end of `RuleEngine3.exit`
(lines 316-325): both legs are decremented by the exited lot size, and the
active calendar is cleared exactly when the buy leg's remaining lot size
is zero. -/
def re3_reduce_lots (cal : CalendarInstrument) (lot_size : ℤ) :
    Option CalendarInstrument :=
  let cw : Instrument :=
    { cal.current_week_instrument with
        lot_size := cal.current_week_instrument.lot_size - lot_size }
  let nw : Instrument :=
    { cal.next_week_instrument with
        lot_size := cal.next_week_instrument.lot_size - lot_size }
  if cw.lot_size = 0 then none else some ⟨cw, nw⟩

/-! ## Calendar helpers (base_backtesting.py lines 154-167, 195-222) -/

/-- Saturday/Sunday test on integer day ordinals; with day 0 a Monday this
matches `date.weekday() in (5, 6)`. -/
def is_weekend (d : ℤ) : Bool :=
  decide (d % 7 = 5 ∨ d % 7 = 6)

/-- Holiday predicate over the loaded holiday list
(`BaseBackTesting.is_holiday`). -/
def is_holiday (hs : List ℤ) (d : ℤ) : Bool :=
  decide (d ∈ hs)

/-- Backward day-by-day walk of `BaseBackTesting.get_valid_expiry`
(lines 159-166), with explicit fuel standing for the unbounded `while`. -/
def get_valid_expiry_loop (hs : List ℤ) : ℕ → ℤ → Option ℤ
  | 0, _ => none
  | fuel + 1, d =>
    if is_weekend (d - 1) || is_holiday hs (d - 1) then
      get_valid_expiry_loop hs fuel (d - 1)
    else some (d - 1)

/-- Embedding of `BaseBackTesting.get_valid_expiry` (lines 154-167): the
backward walk is entered only when the initial expiry is a holiday;
otherwise the expiry is returned unchanged. -/
def get_valid_expiry (hs : List ℤ) (fuel : ℕ) (expiry : ℤ) : Option ℤ :=
  if is_holiday hs expiry then get_valid_expiry_loop hs fuel expiry
  else some expiry

/-- Forward day-by-day walk of `BaseBackTesting.get_next_valid_date`
(lines 195-207), with explicit fuel standing for the unbounded `while`. -/
def get_next_valid_date (hs : List ℤ) : ℕ → ℤ → Option ℤ
  | 0, _ => none
  | fuel + 1, d =>
    if is_weekend (d + 1) || is_holiday hs (d + 1) then
      get_next_valid_date hs fuel (d + 1)
    else some (d + 1)

/-- Embedding of `BaseBackTesting.get_market_hour_datetime`
(lines 209-222): hour-9 signals before 9:15 snap to 9:15 the same day,
hour-15 signals after 15:29 move to 9:15 on the next valid trading day,
and every other timestamp is returned unchanged. -/
def get_market_hour_datetime (hs : List ℤ) (fuel : ℕ) (t : DateTime) :
    Option DateTime :=
  if t.hour = 9 ∧ t.minute < 15 then some ⟨t.day, 9, 15⟩
  else if t.hour = 15 ∧ 29 < t.minute then
    Option.map (fun d => (⟨d, 9, 15⟩ : DateTime)) (get_next_valid_date hs fuel t.day)
  else some t

/-! ## Evaluation helpers for the rational rounding model -/

/-- Floor of an integer-valued rational is that integer. -/
lemma ratFloor_intCast (m : ℤ) : ratFloor (m : ℚ) = m := by
  simp [ratFloor, Rat.intCast_num, Rat.intCast_den, Int.fdiv_one]

/-- Rounding an integer-valued rational returns that integer. -/
lemma roundHalfEven_intCast (m : ℤ) : roundHalfEven (m : ℚ) = m := by
  unfold roundHalfEven
  rw [ratFloor_intCast]
  norm_num

/-- Evaluation rule for `round2` at arguments with at most two decimal
places: no rounding happens. -/
lemma round2_eval (x : ℚ) (m : ℤ) (h : x * 100 = (m : ℚ)) :
    round2 x = (m : ℚ) / 100 := by
  unfold round2
  rw [show (100 : ℚ) * x = (m : ℚ) by linarith, roundHalfEven_intCast]

/-! ## C6: consecutive win/loss streaks on the example P&L sequence -/

/-- C6 (counterexample): the claim asserts that the P&L sequence
[+5, +3, −2, −1, +4] ends with committed `consecutive_loss = 2` and a
running uncommitted win streak of 1.  Folding the tracker over the sequence
gives committed `consecutive_loss = 1` and running win streak 0, because
`ConsecutiveWinLoss.compute` does not count the sign-flipping trade into
the newly started streak. -/
theorem consecutive_win_loss_claim_false :
    ¬((List.foldl ConsecutiveWinLoss.compute {} [5, 3, -2, -1, 4]).consecutive_win = 2 ∧
      (List.foldl ConsecutiveWinLoss.compute {} [5, 3, -2, -1, 4]).consecutive_loss = 2 ∧
      (List.foldl ConsecutiveWinLoss.compute {} [5, 3, -2, -1, 4]).temp_consecutive_win = 1) := by
  decide

/-- C6 (amended): applying `ConsecutiveWinLoss.compute` once per trade to
the P&L sequence [+5, +3, −2, −1, +4] yields committed `consecutive_win = 2`
(the first two trades), committed `consecutive_loss = 1` (only the −1 trade:
on each sign flip the flipping trade is dropped, so −2 commits the win
streak without starting the loss streak and +4 commits the loss streak
without starting a win streak), and both running streaks 0. -/
theorem consecutive_win_loss_example :
    List.foldl ConsecutiveWinLoss.compute {} [5, 3, -2, -1, 4] =
      { prev_trade := 1, temp_consecutive_win := 0, consecutive_win := 2,
        temp_consecutive_loss := 0, consecutive_loss := 1 } := by
  decide

/-! ## C9: division guards of the derived ratios -/

/-- C9: every derived ratio of `StrategyAnalysis` returns 0 rather than
dividing when its denominator is 0: `win_percent` and `loss_percent` when
`total_trades = 0`, `avg_win` when `win_trades = 0`, `avg_loss`,
`win_ratio` and `profit_potential` when `loss_trades = 0`, and
`avg_win_loss` and `profit_potential` when the `avg_loss` value is 0. -/
theorem strategy_ratios_zero_guard (s : StrategyAnalysis) :
    (s.total_trades = 0 → win_percent s = 0 ∧ loss_percent s = 0) ∧
    (s.win_trades = 0 → avg_win s = 0) ∧
    (s.loss_trades = 0 → avg_loss s = 0 ∧ win_ratio s = 0 ∧ profit_potential s = 0) ∧
    (avg_loss s = 0 → avg_win_loss s = 0 ∧ profit_potential s = 0) := by
  refine ⟨fun h => ⟨?_, ?_⟩, fun h => ?_, fun h => ⟨?_, ?_, ?_⟩, fun h => ⟨?_, ?_⟩⟩
  · simp [win_percent, h]
  · simp [loss_percent, h]
  · simp [avg_win, h]
  · simp [avg_loss, h]
  · simp [win_ratio, h]
  · simp [profit_potential, h]
  · simp [avg_win_loss, h]
  · simp [profit_potential, h]

/-- C9 (witness): on the freshly initialised `StrategyAnalysis` every
guarded ratio is 0; in particular `avg_win` with `win_trades = 0` is 0. -/
theorem strategy_ratios_zero_guard_witness :
    win_percent {} = 0 ∧ loss_percent {} = 0 ∧ avg_win {} = 0 ∧ avg_loss {} = 0 ∧
    win_ratio {} = 0 ∧ avg_win_loss {} = 0 ∧ profit_potential {} = 0 := by
  obtain ⟨h1, h2, h3, h4⟩ := strategy_ratios_zero_guard {}
  exact ⟨(h1 rfl).1, (h1 rfl).2, h2 rfl, (h3 rfl).1, (h3 rfl).2.1,
    (h4 (h3 rfl).1).1, (h3 rfl).2.2⟩

/-! ## C8: drawdown of the equity curve -/

/-- C8 (counterexample): the claim asserts that `drawdown` returns `None`
when the equity curve has a single point; on the one-point curve `[100]`
with initial capital configured it instead raises (`np.argmax` of the empty
slice `equity_curve[:0]`). -/
theorem drawdown_single_point_raises :
    drawdown (some 100) [100] = PyResult.exn ∧
    drawdown (some 100) [100] ≠ PyResult.ok none := by
  constructor
  · rfl
  · intro h
    cases (rfl : drawdown (some 100) [100] = PyResult.exn) ▸ h

/-- C8 (amended): `drawdown` returns `None` exactly when no initial capital
is configured.  With initial capital configured it raises whenever the
first index of the maximum peak-to-current drop is 0 — which covers the
empty curve, every single-point curve, and every curve that never declines
— and otherwise returns the peak value minus the trough value at the point
of maximum decline, rounded to 2 decimals. -/
theorem drawdown_spec (ic : Option ℚ) (ec : List ℚ) :
    (ic = none → drawdown ic ec = PyResult.ok none) ∧
    (∀ c, ic = some c →
      (argmaxQ (drawdownDrops ec) = none → drawdown ic ec = PyResult.exn) ∧
      (argmaxQ (drawdownDrops ec) = some 0 → drawdown ic ec = PyResult.exn) ∧
      (∀ t p, argmaxQ (drawdownDrops ec) = some t →
        argmaxQ (ec.take t) = some p →
        drawdown ic ec = PyResult.ok (some (round2 (ec.getD p 0 - ec.getD t 0))))) := by
  constructor
  · rintro rfl
    rfl
  · rintro c rfl
    refine ⟨fun h => ?_, fun h => ?_, fun t p ht hp => ?_⟩
    · simp only [drawdown, h]
    · simp only [drawdown, h]
      rw [List.take_zero]
      rfl
    · simp only [drawdown, ht, hp]

/-- C8 (witness): on the two-point curve [100, 90] with initial capital
configured, the maximum drop is at index 1, the preceding peak at index 0,
and `drawdown` returns the absolute decline 10.00. -/
theorem drawdown_spec_witness :
    drawdown (some 100) [100, 90] = PyResult.ok (some (round2 ((100 : ℚ) - 90))) ∧
    round2 ((100 : ℚ) - 90) = 10 := by
  constructor
  · have hd : drawdownDrops [100, 90] = [0, 10] := by
      norm_num [drawdownDrops, runningMax, runningMaxAux]
    have h1 : argmaxQ (drawdownDrops [100, 90]) = some 1 := by
      rw [hd]
      norm_num [argmaxQ, argmaxAux]
    have h := ((drawdown_spec (some 100) [100, 90]).2 100 rfl).2.2 1 0 h1 rfl
    exact h
  · rw [round2_eval ((100 : ℚ) - 90) 1000 (by norm_num)]
    norm_num

/-! ## C2: stop-loss anchor across soft re-entries -/

/-- C2 (code evaluation at the failing input): the stored stop-loss fields
`self._ce_sl` / `self._pe_sl` are set to `None` at the signal entry
(process_input lines 99-100) and are never assigned afterwards, so the
`storedSl` argument of the scan is always `none` and the threshold is
recomputed from the price of whatever instrument is currently open.  With
a true-entry price of 100 and `sl_percent = 20` on the long CE leg the
anchor is 80.00; after a soft re-entry at price 50 the scan instead uses
the recomputed threshold 40.00, and a bar closing at 60 — below the
true-entry anchor — is not reported as a stop-loss hit, while the same
scan with the anchor stored would report it. -/
theorem hull_soft_reentry_sl_recomputed :
    hullSlPrice .CE none 20 100 = 80 ∧
    hullSlPrice .CE none 20 50 = 40 ∧
    instrument_stop_loss_hit .CE none 20 50 [⟨⟨2, 10, 0⟩, 60⟩] = none ∧
    instrument_stop_loss_hit .CE (some 80) 20 50 [⟨⟨2, 10, 0⟩, 60⟩] =
      some ⟨⟨2, 10, 0⟩, 60⟩ := by
  have h80 : hullSlPrice .CE none 20 100 = 80 := by
    show (if (20 : ℚ) = 100 then 0 else round2 ((100 - 20) * 100 / 100)) = 80
    rw [if_neg (by norm_num), round2_eval ((100 - 20) * 100 / 100) 8000 (by norm_num)]
    norm_num
  have h40 : hullSlPrice .CE none 20 50 = 40 := by
    show (if (20 : ℚ) = 100 then 0 else round2 ((100 - 20) * 50 / 100)) = 40
    rw [if_neg (by norm_num), round2_eval ((100 - 20) * 50 / 100) 4000 (by norm_num)]
    norm_num
  refine ⟨h80, h40, ?_, ?_⟩
  · show List.find? (hullSlCond .CE (hullSlPrice .CE none 20 50)) _ = none
    rw [h40]
    have hc : hullSlCond .CE 40 ⟨⟨2, 10, 0⟩, 60⟩ = false := by decide
    simp [List.find?, hc]
  · show List.find? (hullSlCond .CE (hullSlPrice .CE (some 80) 20 50)) _ = _
    have hc : hullSlCond .CE (hullSlPrice .CE (some 80) 20 50) ⟨⟨2, 10, 0⟩, 60⟩ = true := by
      decide
    simp [List.find?, hc]

/-! ## C5: calendar-spread lot-size invariant -/

/-- C5: when the two legs of an active calendar spread hold equal remaining
lot sizes, any exit through `RuleEngine3.exit` leaves them equal again, and
the spread is cleared (set to `None`) exactly when the common remaining
lot size reaches zero. -/
theorem re3_calendar_lot_invariant (cal : CalendarInstrument) (l : ℤ)
    (h : cal.current_week_instrument.lot_size = cal.next_week_instrument.lot_size) :
    (∀ cal', re3_reduce_lots cal l = some cal' →
      cal'.current_week_instrument.lot_size = cal'.next_week_instrument.lot_size) ∧
    (re3_reduce_lots cal l = none ↔
      cal.current_week_instrument.lot_size - l = 0) := by
  unfold re3_reduce_lots
  by_cases hz : cal.current_week_instrument.lot_size - l = 0
  · refine ⟨fun cal' hc => ?_, by simp [hz]⟩
    simp [hz] at hc
  · refine ⟨fun cal' hc => ?_, by simp [hz]⟩
    simp only [if_neg hz, Option.some.injEq] at hc
    subst hc
    simpa using h

/-- C5 (witness): a spread with 10 lots on each leg exited for 4 lots keeps
equal legs of 6 lots; exiting the full 10 lots clears the spread. -/
theorem re3_calendar_lot_invariant_witness :
    re3_reduce_lots ⟨⟨10, 0, none⟩, ⟨10, 0, none⟩⟩ 4 =
      some ⟨⟨6, 0, none⟩, ⟨6, 0, none⟩⟩ ∧
    re3_reduce_lots ⟨⟨10, 0, none⟩, ⟨10, 0, none⟩⟩ 10 = none := by
  constructor
  · decide
  · exact (re3_calendar_lot_invariant ⟨⟨10, 0, none⟩, ⟨10, 0, none⟩⟩ 10 rfl).2.mpr (by decide)

/-! ## C7: holiday-adjusted valid expiry -/

/-- Specification of the backward walk of `get_valid_expiry`: whenever it
returns a day, that day is strictly earlier, is neither a weekend day nor a
holiday, and every day strictly between it and the start is a weekend day
or a holiday. -/
lemma get_valid_expiry_loop_spec (hs : List ℤ) :
    ∀ (fuel : ℕ) (d e : ℤ), get_valid_expiry_loop hs fuel d = some e →
      e < d ∧ is_weekend e = false ∧ is_holiday hs e = false ∧
      ∀ x : ℤ, e < x → x < d → is_weekend x = true ∨ is_holiday hs x = true := by
  intro fuel
  induction fuel with
  | zero => intro d e h; cases h
  | succ n ih =>
    intro d e h
    rw [get_valid_expiry_loop] at h
    by_cases hc : (is_weekend (d - 1) || is_holiday hs (d - 1)) = true
    · rw [if_pos hc] at h
      obtain ⟨h1, h2, h3, h4⟩ := ih (d - 1) e h
      refine ⟨by omega, h2, h3, fun x hx1 hx2 => ?_⟩
      by_cases hx : x < d - 1
      · exact h4 x hx1 hx
      · have : x = d - 1 := by omega
        subst this
        exact (Bool.or_eq_true _ _).mp hc
    · rw [if_neg hc] at h
      injection h with h'
      subst h'
      have hw : is_weekend (d - 1) = false ∧ is_holiday hs (d - 1) = false := by
        constructor <;> [skip; skip] <;>
          (cases hw1 : is_weekend (d - 1) <;> cases hw2 : is_holiday hs (d - 1) <;>
            simp [hw1, hw2] at hc ⊢)
      exact ⟨by omega, hw.1, hw.2, fun x hx1 hx2 => absurd (by omega : (d : ℤ) ≤ d - 1) (by omega)⟩

/-- C7 (counterexample): the claim asserts that an expiry on a Saturday
that is not in the holiday set is moved back to the preceding valid day;
`get_valid_expiry` only enters its backward walk when the initial day is a
holiday, so the non-holiday Saturday (day 5) is returned unchanged. -/
theorem get_valid_expiry_weekend_counterexample :
    get_valid_expiry [] 30 5 = some 5 ∧ is_weekend 5 = true ∧ is_holiday [] 5 = false := by
  refine ⟨?_, by decide, by decide⟩
  rfl

/-- C7 (amended): `get_valid_expiry` returns a non-holiday input date
unchanged — even when it is a weekend day.  Only when the input date is a
holiday does it walk backward one day at a time, and then it returns the
first earlier day that is neither a weekend day nor a holiday (every
skipped day in between being a weekend day or a holiday). -/
theorem get_valid_expiry_spec (hs : List ℤ) (fuel : ℕ) (d : ℤ) :
    (is_holiday hs d = false → get_valid_expiry hs fuel d = some d) ∧
    (is_holiday hs d = true → ∀ e, get_valid_expiry hs fuel d = some e →
      e < d ∧ is_weekend e = false ∧ is_holiday hs e = false ∧
      ∀ x : ℤ, e < x → x < d → is_weekend x = true ∨ is_holiday hs x = true) := by
  constructor
  · intro h
    unfold get_valid_expiry
    rw [h]
    rfl
  · intro h e he
    unfold get_valid_expiry at he
    rw [h] at he
    exact get_valid_expiry_loop_spec hs fuel d e he

/-- C7 (witness): with day 10 (a Thursday) declared a holiday, the walk
returns day 9, which is strictly earlier, not a weekend day, and not a
holiday. -/
theorem get_valid_expiry_spec_witness :
    get_valid_expiry [10] 30 10 = some 9 ∧
    (9 : ℤ) < 10 ∧ is_weekend 9 = false ∧ is_holiday [10] 9 = false := by
  refine ⟨by decide, ?_⟩
  have h := (get_valid_expiry_spec [10] 30 10).2 (by decide) 9 (by decide)
  exact ⟨h.1, h.2.1, h.2.2.1⟩

/-! ## C4: expiry-pinned exits (counterexample part) -/

/-- C4 (counterexample): the claim asserts every no-stop-loss,
no-take-profit exit whose nominal exit date lies after expiry is recorded
at the expiry date 15:29; `RuleEngine3.exit` pins such exits to the expiry
date at 15:25 instead. -/
theorem re3_expiry_exit_time_counterexample :
    re3_exit 7 ⟨9, 10, 0⟩ none true 0 [] = (.EXPIRY_EXIT, ⟨7, 15, 25⟩) ∧
    (⟨7, 15, 25⟩ : DateTime) ≠ ⟨7, 15, 29⟩ := by
  constructor
  · rfl
  · decide

/-! ## C10: market-hour normalisation of signal timestamps -/

/-- Specification of the forward walk of `get_next_valid_date`: whenever it
returns a day, that day is strictly later, is neither a weekend day nor a
holiday, and every day strictly between the start and it is a weekend day
or a holiday. -/
lemma get_next_valid_date_spec (hs : List ℤ) :
    ∀ (fuel : ℕ) (d e : ℤ), get_next_valid_date hs fuel d = some e →
      d < e ∧ is_weekend e = false ∧ is_holiday hs e = false ∧
      ∀ x : ℤ, d < x → x < e → is_weekend x = true ∨ is_holiday hs x = true := by
  intro fuel
  induction fuel with
  | zero => intro d e h; cases h
  | succ n ih =>
    intro d e h
    rw [get_next_valid_date] at h
    by_cases hc : (is_weekend (d + 1) || is_holiday hs (d + 1)) = true
    · rw [if_pos hc] at h
      obtain ⟨h1, h2, h3, h4⟩ := ih (d + 1) e h
      refine ⟨by omega, h2, h3, fun x hx1 hx2 => ?_⟩
      by_cases hx : d + 1 < x
      · exact h4 x hx hx2
      · have : x = d + 1 := by omega
        subst this
        exact (Bool.or_eq_true _ _).mp hc
    · rw [if_neg hc] at h
      injection h with h'
      subst h'
      have hw : is_weekend (d + 1) = false ∧ is_holiday hs (d + 1) = false := by
        constructor <;> [skip; skip] <;>
          (cases hw1 : is_weekend (d + 1) <;> cases hw2 : is_holiday hs (d + 1) <;>
            simp [hw1, hw2] at hc ⊢)
      exact ⟨by omega, hw.1, hw.2, fun x hx1 hx2 => absurd (by omega : (d : ℤ) + 1 ≤ d) (by omega)⟩

/-- C10: `get_market_hour_datetime` maps an hour-9 signal with minute
below 15 to 09:15 the same day; it maps an hour-15 signal with minute above
29 to 09:15 on the next following day that is neither a Saturday, a Sunday,
nor a holiday; and it returns every other timestamp unchanged, including
times before 09:00 and at 16:00 or later. -/
theorem get_market_hour_datetime_spec (hs : List ℤ) (fuel : ℕ) (t : DateTime) :
    (t.hour = 9 ∧ t.minute < 15 →
      get_market_hour_datetime hs fuel t = some ⟨t.day, 9, 15⟩) ∧
    (t.hour = 15 ∧ 29 < t.minute → ∀ r, get_market_hour_datetime hs fuel t = some r →
      r.hour = 9 ∧ r.minute = 15 ∧ t.day < r.day ∧ is_weekend r.day = false ∧
      is_holiday hs r.day = false ∧
      ∀ x : ℤ, t.day < x → x < r.day → is_weekend x = true ∨ is_holiday hs x = true) ∧
    (¬(t.hour = 9 ∧ t.minute < 15) → ¬(t.hour = 15 ∧ 29 < t.minute) →
      get_market_hour_datetime hs fuel t = some t) := by
  refine ⟨fun h => ?_, fun h r hr => ?_, fun h1 h2 => ?_⟩
  · unfold get_market_hour_datetime
    rw [if_pos h]
  · have h9 : ¬(t.hour = 9 ∧ t.minute < 15) := by
      rintro ⟨h9, _⟩
      omega
    unfold get_market_hour_datetime at hr
    rw [if_neg h9, if_pos h] at hr
    obtain ⟨d, hd, hrd⟩ := Option.map_eq_some'.mp hr
    obtain ⟨h1, h2, h3, h4⟩ := get_next_valid_date_spec hs fuel t.day d hd
    subst hrd
    exact ⟨rfl, rfl, h1, h2, h3, h4⟩
  · unfold get_market_hour_datetime
    rw [if_neg h1, if_neg h2]

/-- C10 (witness): a Friday 15:45 signal with the following Monday a
holiday moves to Tuesday 09:15 (skipping Saturday, Sunday and the holiday
Monday); a 08:59 signal is returned unchanged. -/
theorem get_market_hour_datetime_spec_witness :
    get_market_hour_datetime [7] 30 ⟨4, 15, 45⟩ = some ⟨8, 9, 15⟩ ∧
    ((4 : ℤ) < 8 ∧ is_weekend 8 = false ∧ is_holiday [7] 8 = false) ∧
    get_market_hour_datetime [7] 30 ⟨4, 8, 59⟩ = some ⟨4, 8, 59⟩ := by
  refine ⟨by decide, ?_, ?_⟩
  · have h := (get_market_hour_datetime_spec [7] 30 ⟨4, 15, 45⟩).2.1 (by decide)
      ⟨8, 9, 15⟩ (by decide)
    exact ⟨h.2.2.1, h.2.2.2.1, h.2.2.2.2.1⟩
  · exact (get_market_hour_datetime_spec [7] 30 ⟨4, 8, 59⟩).2.2 (by decide) (by decide)

/-! ## C4: expiry-pinned exits (amended theorem) -/

/-- C4 (amended): when neither the stop-loss scan nor the take-profit scan
reports a hit and the nominal exit date lies strictly after expiry, a
non-soft `HullMABackTesting.exit` records EXPIRY_EXIT at the expiry date
15:29, while `RuleEngine3.exit` under the same conditions records
EXPIRY_EXIT at the expiry date 15:25. -/
theorem expiry_exit_pinned (ot : OptionType) (storedSl sl_check tp_check : Option ℚ)
    (p q : ℚ) (expiry : ℤ) (exit_datetime : DateTime) (bars : List Bar)
    (hsl : ∀ s, sl_check = some s → instrument_stop_loss_hit ot storedSl s p bars = none)
    (htp : ∀ s, tp_check = some s → instrument_take_profit_hit ot s p bars = none)
    (hexp : expiry < exit_datetime.day) :
    hullLegExit ot false sl_check tp_check storedSl p expiry exit_datetime bars q =
      ⟨.EXPIRY_EXIT, q, ⟨expiry, 15, 29⟩⟩ ∧
    ∀ (trailing : Bool) (sl0 : ℚ) (c : Option ℚ) (bars' : List Bar)
      (t : DateTime) (e : ℤ),
      (∀ s, c = some s → (calendar_stop_loss_hit trailing s sl0 bars').1 = none) →
      e < t.day →
      re3_exit e t c trailing sl0 bars' = (.EXPIRY_EXIT, ⟨e, 15, 25⟩) := by
  constructor
  · unfold hullLegExit
    rw [if_pos hexp]
    cases sl_check with
    | none =>
      cases tp_check with
      | none => rfl
      | some s =>
        dsimp only
        rw [htp s rfl]
        rfl
    | some s =>
      dsimp only
      rw [hsl s rfl]
      cases tp_check with
      | none => rfl
      | some s' =>
        dsimp only
        rw [htp s' rfl]
        rfl
  · intro trailing sl0 c bars' t e hc het
    unfold re3_exit
    rw [if_pos het]
    cases c with
    | none => rfl
    | some s =>
      dsimp only
      rw [hc s rfl]

/-- C4 (witness): with stop-loss and take-profit checks configured but no
bars to trigger them, an exit signalled two days after expiry is recorded
as EXPIRY_EXIT at 15:29 by the hull engine and at 15:25 by the calendar
engine. -/
theorem expiry_exit_pinned_witness :
    hullLegExit .CE false (some 20) (some 30) none 100 7 ⟨9, 10, 0⟩ [] 55 =
      ⟨.EXPIRY_EXIT, 55, ⟨7, 15, 29⟩⟩ ∧
    re3_exit 7 ⟨9, 10, 0⟩ (some 20) true 120 [] = (.EXPIRY_EXIT, ⟨7, 15, 25⟩) := by
  have h := expiry_exit_pinned .CE none (some 20) (some 30) 100 55 7 ⟨9, 10, 0⟩ []
    (fun s hs => by injection hs with hs'; subst hs'; rfl)
    (fun s hs => by injection hs with hs'; subst hs'; rfl)
    (by decide)
  exact ⟨h.1, h.2 true 120 (some 20) [] ⟨9, 10, 0⟩ 7
    (fun s hs => by injection hs with hs'; subst hs'; rfl) (by decide)⟩

/-! ## C1: stop-loss before take-profit precedence in the hull exit -/

/-- First-match characterisation of `List.find?`: a returned element is at
some index, satisfies the predicate, and every earlier element fails it. -/
lemma find?_some_spec {α : Type} (p : α → Bool) :
    ∀ (l : List α) (b : α), l.find? p = some b →
      ∃ i, ∃ hi : i < l.length, l.get ⟨i, hi⟩ = b ∧ p b = true ∧
        ∀ j, ∀ hj : j < i, p (l.get ⟨j, Nat.lt_trans hj hi⟩) = false := by
  intro l
  induction l with
  | nil => intro b h; cases h
  | cons a l ih =>
    intro b h
    by_cases hp : p a = true
    · rw [List.find?_cons_of_pos _ hp] at h
      injection h with h'
      subst h'
      exact ⟨0, Nat.succ_pos _, rfl, hp, fun j hj => absurd hj (Nat.not_lt_zero j)⟩
    · have hp' : p a = false := by
        cases hpa : p a
        · rfl
        · exact absurd hpa hp
      rw [List.find?_cons_of_neg _ hp] at h
      obtain ⟨i, hi, hget, hpb, hprev⟩ := ih b h
      refine ⟨i + 1, Nat.succ_lt_succ hi, hget, hpb, ?_⟩
      intro j hj
      cases j with
      | zero => exact hp'
      | succ k => exact hprev k (Nat.lt_of_succ_lt_succ hj)

/-- Successful search is guaranteed when some element satisfies the
predicate. -/
lemma find?_isSome_of_mem {α : Type} (p : α → Bool) (l : List α)
    (hx : ∃ b ∈ l, p b = true) : ∃ b, l.find? p = some b := by
  cases hf : l.find? p with
  | some b => exact ⟨b, rfl⟩
  | none =>
    obtain ⟨b, hb, hpb⟩ := hx
    exact absurd hpb (List.find?_eq_none.mp hf b hb)

/-- C1: with both a stop-loss and a take-profit percentage configured, the
hull exit scans the whole bar range for a stop-loss breach first: if any
bar satisfies the stop-loss condition, the exit is SL_EXIT at the first
such bar's close and timestamp — regardless of any (possibly earlier) bar
satisfying the take-profit condition; only when no bar satisfies the
stop-loss condition does a take-profit breach produce TAKE_PROFIT_EXIT at
the first satisfying bar's close and timestamp. -/
theorem hull_exit_sl_precedence (ot : OptionType) (soft : Bool) (storedSl : Option ℚ)
    (sl tp p q : ℚ) (expiry : ℤ) (exit_datetime : DateTime) (bars : List Bar) :
    ((∃ b ∈ bars, hullSlCond ot (hullSlPrice ot storedSl sl p) b = true) →
      ∃ i, ∃ hi : i < bars.length,
        hullSlCond ot (hullSlPrice ot storedSl sl p) (bars.get ⟨i, hi⟩) = true ∧
        (∀ j, ∀ hj : j < i,
          hullSlCond ot (hullSlPrice ot storedSl sl p) (bars.get ⟨j, Nat.lt_trans hj hi⟩) = false) ∧
        hullLegExit ot soft (some sl) (some tp) storedSl p expiry exit_datetime bars q =
          ⟨.SL_EXIT, (bars.get ⟨i, hi⟩).close, (bars.get ⟨i, hi⟩).ts⟩) ∧
    ((∀ b ∈ bars, hullSlCond ot (hullSlPrice ot storedSl sl p) b = false) →
      (∃ b ∈ bars, hullTpCond ot (hullTpPrice ot tp p) b = true) →
      ∃ i, ∃ hi : i < bars.length,
        hullTpCond ot (hullTpPrice ot tp p) (bars.get ⟨i, hi⟩) = true ∧
        (∀ j, ∀ hj : j < i,
          hullTpCond ot (hullTpPrice ot tp p) (bars.get ⟨j, Nat.lt_trans hj hi⟩) = false) ∧
        hullLegExit ot soft (some sl) (some tp) storedSl p expiry exit_datetime bars q =
          ⟨.TAKE_PROFIT_EXIT, (bars.get ⟨i, hi⟩).close, (bars.get ⟨i, hi⟩).ts⟩) := by
  constructor
  · intro hex
    obtain ⟨b, hfind⟩ := find?_isSome_of_mem _ bars hex
    obtain ⟨i, hi, hget, hpb, hprev⟩ := find?_some_spec _ bars b hfind
    refine ⟨i, hi, by rw [hget]; exact hpb, hprev, ?_⟩
    have hsl : instrument_stop_loss_hit ot storedSl sl p bars = some b := hfind
    unfold hullLegExit
    dsimp only
    rw [hsl, hget]
  · intro hall hex
    have hslnone : instrument_stop_loss_hit ot storedSl sl p bars = none := by
      unfold instrument_stop_loss_hit
      rw [List.find?_eq_none]
      intro x hx
      simp [hall x hx]
    obtain ⟨b, hfind⟩ := find?_isSome_of_mem _ bars hex
    obtain ⟨i, hi, hget, hpb, hprev⟩ := find?_some_spec _ bars b hfind
    refine ⟨i, hi, by rw [hget]; exact hpb, hprev, ?_⟩
    have htp : instrument_take_profit_hit ot tp p bars = some b := hfind
    unfold hullLegExit
    dsimp only
    rw [hslnone, htp, hget]

/-- C1 (witness): a short PE leg entered at 100 with stop-loss 20% and
take-profit 50%: the first bar (close 40) already satisfies the take-profit
condition, the second bar (close 130) breaches the stop-loss threshold 120,
and the resolved exit is SL_EXIT at the second bar. -/
theorem hull_exit_sl_precedence_witness :
    hullTpCond .PE (hullTpPrice .PE 50 100) ⟨⟨1, 9, 30⟩, 40⟩ = true ∧
    hullLegExit .PE false (some 20) (some 50) none 100 7 ⟨1, 10, 0⟩
      [⟨⟨1, 9, 30⟩, 40⟩, ⟨⟨1, 9, 40⟩, 130⟩] 0 = ⟨.SL_EXIT, 130, ⟨1, 9, 40⟩⟩ ∧
    (∃ i, ∃ hi : i < ([⟨⟨1, 9, 30⟩, 40⟩, ⟨⟨1, 9, 40⟩, 130⟩] : List Bar).length,
      hullSlCond .PE (hullSlPrice .PE none 20 100)
        (([⟨⟨1, 9, 30⟩, 40⟩, ⟨⟨1, 9, 40⟩, 130⟩] : List Bar).get ⟨i, hi⟩) = true ∧
      (∀ j, ∀ hj : j < i,
        hullSlCond .PE (hullSlPrice .PE none 20 100)
          (([⟨⟨1, 9, 30⟩, 40⟩, ⟨⟨1, 9, 40⟩, 130⟩] : List Bar).get
            ⟨j, Nat.lt_trans hj hi⟩) = false) ∧
      hullLegExit .PE false (some 20) (some 50) none 100 7 ⟨1, 10, 0⟩
          [⟨⟨1, 9, 30⟩, 40⟩, ⟨⟨1, 9, 40⟩, 130⟩] 0 =
        ⟨.SL_EXIT,
          (([⟨⟨1, 9, 30⟩, 40⟩, ⟨⟨1, 9, 40⟩, 130⟩] : List Bar).get ⟨i, hi⟩).close,
          (([⟨⟨1, 9, 30⟩, 40⟩, ⟨⟨1, 9, 40⟩, 130⟩] : List Bar).get ⟨i, hi⟩).ts⟩) := by
  have hsl120 : hullSlPrice .PE none 20 100 = 120 := by
    show round2 ((100 + 20) * 100 / 100) = 120
    rw [round2_eval ((100 + 20) * 100 / 100) 12000 (by norm_num)]
    norm_num
  have htp50 : hullTpPrice .PE 50 100 = 50 := by
    show (if (50 : ℚ) = 100 then 0 else round2 ((100 - 50) * 100 / 100)) = 50
    rw [if_neg (by norm_num), round2_eval ((100 - 50) * 100 / 100) 5000 (by norm_num)]
    norm_num
  refine ⟨by rw [htp50]; decide, ?_, ?_⟩
  · have hscan : instrument_stop_loss_hit .PE none 20 100
        [⟨⟨1, 9, 30⟩, 40⟩, ⟨⟨1, 9, 40⟩, 130⟩] = some ⟨⟨1, 9, 40⟩, 130⟩ := by
      unfold instrument_stop_loss_hit
      rw [hsl120]
      decide
    unfold hullLegExit
    dsimp only
    rw [hscan]
  · exact (hull_exit_sl_precedence .PE false none 20 50 100 0 7 ⟨1, 10, 0⟩
      [⟨⟨1, 9, 30⟩, 40⟩, ⟨⟨1, 9, 40⟩, 130⟩]).1
      ⟨⟨⟨1, 9, 40⟩, 130⟩, by decide, by rw [hsl120]; decide⟩

/-! ## C3: trailing stop loss of the short leg -/

/-- One trailing update never increases the stored stop-loss price. -/
lemma sl_trail_le (s sl c : ℚ) : sl_trail s sl c ≤ sl := by
  unfold sl_trail
  split
  · exact le_of_lt (by assumption)
  · exact le_rfl

/-- Folding the trailing update over any bar list never increases the
stored stop-loss price. -/
lemma sl_after_le (s : ℚ) : ∀ (l : List Bar) (sl : ℚ), sl_after s sl l ≤ sl := by
  intro l
  induction l with
  | nil => intro sl; exact le_rfl
  | cons b l ih =>
    intro sl
    exact le_trans (ih (sl_trail s sl b.close)) (sl_trail_le s sl b.close)

/-- The stored stop-loss after a concatenation is the fold of the second
part over the fold of the first. -/
lemma sl_after_append (s sl : ℚ) (l1 l2 : List Bar) :
    sl_after s sl (l1 ++ l2) = sl_after s (sl_after s sl l1) l2 := by
  simp [sl_after, List.foldl_append]

/-- The stored stop-loss price is non-increasing along the scan: scanning
more bars never raises it. -/
lemma sl_after_take_mono (s sl : ℚ) (l : List Bar) {i j : ℕ} (hij : i ≤ j) :
    sl_after s sl (l.take j) ≤ sl_after s sl (l.take i) := by
  have hsplit : l.take j = l.take i ++ (l.take j).drop i := by
    conv_lhs => rw [← List.take_append_drop i (l.take j)]
    rw [List.take_take, min_eq_left hij]
  rw [hsplit, sl_after_append]
  exact sl_after_le _ _ _

/-- Characterisation of the RuleEngine2 trailing stop-loss scan: when it
reports no hit, every bar's close is at most the stored (trailed)
stop-loss current at that bar; when it reports a hit, the hit is the first
bar whose close strictly exceeds the stored stop-loss current at that bar,
and the stored price left on the instrument is the one current at the hit. -/
lemma re2_scan_spec (s : ℚ) :
    ∀ (bars : List Bar) (sl : ℚ),
      ((re2_instrument_stop_loss_hit s sl bars).1 = none →
        ∀ i, ∀ hi : i < bars.length,
          (bars.get ⟨i, hi⟩).close ≤ sl_after s sl (bars.take (i + 1))) ∧
      (∀ b, (re2_instrument_stop_loss_hit s sl bars).1 = some b →
        ∃ i, ∃ hi : i < bars.length, bars.get ⟨i, hi⟩ = b ∧
          sl_after s sl (bars.take (i + 1)) < b.close ∧
          (re2_instrument_stop_loss_hit s sl bars).2 =
            sl_after s sl (bars.take (i + 1)) ∧
          ∀ j, ∀ hj : j < i,
            (bars.get ⟨j, Nat.lt_trans hj hi⟩).close ≤
              sl_after s sl (bars.take (j + 1))) := by
  intro bars
  induction bars with
  | nil =>
    intro sl
    constructor
    · intro _ i hi
      exact absurd hi (Nat.not_lt_zero i)
    · intro b h
      simp [re2_instrument_stop_loss_hit] at h
  | cons a l ih =>
    intro sl
    by_cases hc : sl_trail s sl a.close < a.close
    · have hred : re2_instrument_stop_loss_hit s sl (a :: l) =
          (some a, sl_trail s sl a.close) := by
        unfold re2_instrument_stop_loss_hit
        dsimp only
        rw [if_pos hc]
      constructor
      · intro h
        rw [hred] at h
        cases h
      · intro b h
        rw [hred] at h
        injection h with h'
        subst h'
        refine ⟨0, Nat.succ_pos _, rfl, hc, ?_, fun j hj => absurd hj (Nat.not_lt_zero j)⟩
        rw [hred]
        rfl
    · have hred : re2_instrument_stop_loss_hit s sl (a :: l) =
          re2_instrument_stop_loss_hit s (sl_trail s sl a.close) l := by
        conv_lhs => rw [re2_instrument_stop_loss_hit]
        rw [if_neg hc]
      obtain ⟨ihnone, ihsome⟩ := ih (sl_trail s sl a.close)
      constructor
      · intro h i hi
        rw [hred] at h
        cases i with
        | zero => exact le_of_not_lt hc
        | succ k => exact ihnone h k (Nat.lt_of_succ_lt_succ hi)
      · intro b h
        rw [hred] at h
        obtain ⟨i, hi, hget, hlt, hsnd, hprev⟩ := ihsome b h
        refine ⟨i + 1, Nat.succ_lt_succ hi, hget, hlt, ?_, ?_⟩
        · rw [hred]
          exact hsnd
        · intro j hj
          cases j with
          | zero => exact le_of_not_lt hc
          | succ k => exact hprev k (Nat.lt_of_succ_lt_succ hj)

/-- With its trailing flag set, the RuleEngine3 calendar stop-loss scan is
the RuleEngine2 scan. -/
lemma calendar_trailing_eq_re2 (s : ℚ) :
    ∀ (bars : List Bar) (sl : ℚ),
      calendar_stop_loss_hit true s sl bars = re2_instrument_stop_loss_hit s sl bars := by
  intro bars
  induction bars with
  | nil => intro sl; rfl
  | cons a l ih =>
    intro sl
    by_cases hc : sl_trail s sl a.close < a.close
    · simp [calendar_stop_loss_hit, re2_instrument_stop_loss_hit, hc]
    · simp [calendar_stop_loss_hit, re2_instrument_stop_loss_hit, hc, ih]

/-- C3: for a short leg with stop-loss configured, the stored stop-loss
price starts at `round2(entry_price * (100 + sl_percent) / 100)`; it is
non-increasing along the bar-by-bar scan because each bar's candidate
`round2(close * (100 + sl_percent) / 100)` replaces it only when strictly
lower; the scan reports a hit exactly at the first bar whose close
strictly exceeds the current stored price, returning that bar (close and
timestamp) and leaving the then-current stored price on the leg, and
reports no hit when no bar's close ever exceeds it.  The RuleEngine3
calendar scan with its trailing flag set behaves identically. -/
theorem re2_trailing_stop_loss_spec (s p : ℚ) (bars : List Bar) :
    re2_entry_sl_price s p = round2 ((100 + s) * p / 100) ∧
    (∀ i j : ℕ, i ≤ j →
      sl_after s (re2_entry_sl_price s p) (bars.take j) ≤
        sl_after s (re2_entry_sl_price s p) (bars.take i)) ∧
    ((re2_instrument_stop_loss_hit s (re2_entry_sl_price s p) bars).1 = none →
      ∀ i, ∀ hi : i < bars.length,
        (bars.get ⟨i, hi⟩).close ≤
          sl_after s (re2_entry_sl_price s p) (bars.take (i + 1))) ∧
    (∀ b, (re2_instrument_stop_loss_hit s (re2_entry_sl_price s p) bars).1 = some b →
      ∃ i, ∃ hi : i < bars.length, bars.get ⟨i, hi⟩ = b ∧
        sl_after s (re2_entry_sl_price s p) (bars.take (i + 1)) < b.close ∧
        (re2_instrument_stop_loss_hit s (re2_entry_sl_price s p) bars).2 =
          sl_after s (re2_entry_sl_price s p) (bars.take (i + 1)) ∧
        ∀ j, ∀ hj : j < i,
          (bars.get ⟨j, Nat.lt_trans hj hi⟩).close ≤
            sl_after s (re2_entry_sl_price s p) (bars.take (j + 1))) ∧
    (∀ (sl : ℚ) (l : List Bar),
      calendar_stop_loss_hit true s sl l = re2_instrument_stop_loss_hit s sl l) := by
  exact ⟨rfl, fun i j hij => sl_after_take_mono s _ bars hij,
    (re2_scan_spec s bars _).1, (re2_scan_spec s bars _).2,
    fun sl l => calendar_trailing_eq_re2 s l sl⟩

/-- C3 (witness): the spec example — entry 100, stop-loss 20% gives initial
stored price 120; a bar closing at 90 trails it to 108; the next bar
closing at 110 exceeds 108 and triggers the hit at that bar with stored
price 108; the stored price after two bars is no larger than after one. -/
theorem re2_trailing_stop_loss_spec_witness :
    re2_entry_sl_price 20 100 = 120 ∧
    re2_instrument_stop_loss_hit 20 (re2_entry_sl_price 20 100)
      [⟨⟨1, 10, 0⟩, 90⟩, ⟨⟨1, 10, 1⟩, 110⟩] = (some ⟨⟨1, 10, 1⟩, 110⟩, 108) ∧
    sl_after 20 (re2_entry_sl_price 20 100)
      (([⟨⟨1, 10, 0⟩, 90⟩, ⟨⟨1, 10, 1⟩, 110⟩] : List Bar).take 2) ≤
      sl_after 20 (re2_entry_sl_price 20 100)
        (([⟨⟨1, 10, 0⟩, 90⟩, ⟨⟨1, 10, 1⟩, 110⟩] : List Bar).take 1) := by
  have h120 : re2_entry_sl_price 20 100 = 120 := by
    unfold re2_entry_sl_price
    rw [round2_eval ((100 + 20) * 100 / 100) 12000 (by norm_num)]
    norm_num
  have ht1 : sl_trail 20 120 90 = 108 := by
    have hc1 : sl_candidate 20 (90 : ℚ) = 108 := by
      unfold sl_candidate
      rw [round2_eval ((100 + 20) * 90 / 100) 10800 (by norm_num)]
      norm_num
    unfold sl_trail
    rw [hc1, if_pos (by norm_num)]
  have ht2 : sl_trail 20 108 110 = 108 := by
    have hc2 : sl_candidate 20 (110 : ℚ) = 132 := by
      unfold sl_candidate
      rw [round2_eval ((100 + 20) * 110 / 100) 13200 (by norm_num)]
      norm_num
    unfold sl_trail
    rw [hc2, if_neg (by norm_num)]
  refine ⟨h120, ?_, ?_⟩
  · rw [h120]
    have hstep : re2_instrument_stop_loss_hit 20 120
        [⟨⟨1, 10, 0⟩, 90⟩, ⟨⟨1, 10, 1⟩, 110⟩] =
        re2_instrument_stop_loss_hit 20 108 [⟨⟨1, 10, 1⟩, 110⟩] := by
      conv_lhs => rw [re2_instrument_stop_loss_hit]
      rw [ht1, if_neg (by norm_num : ¬(108 : ℚ) < 90)]
    rw [hstep]
    conv_lhs => rw [re2_instrument_stop_loss_hit]
    rw [ht2, if_pos (by norm_num : (108 : ℚ) < 110)]
  · exact (re2_trailing_stop_loss_spec 20 100
      [⟨⟨1, 10, 0⟩, 90⟩, ⟨⟨1, 10, 1⟩, 110⟩]).2.1 1 2 (by norm_num)
